import Mathlib

/-!
# Verification of `fix_binary_returns.py`

This file is a shallow embedding of the line-rewriting tool
`fix_binary_returns.py`: a one-pass, line-by-line rewriter that, inside a
fixed window of line numbers, converts `return val_X(...);` statements
(optionally preceded by a `case LABEL:` on the same physical line) into
`binary_result = val_X(...); goto binary_cleanup;` sequences.

Lines are modelled as `List Char` (the raw line text, line terminator
included, exactly as Python `readlines` yields it).

The two regular expressions of the source,

* `(\s*)(?:case \w+:\s*)?return\s+(val_\w+\([^)]+\));`  (the rewrite match), and
* `(\s*)(case \w+):\s*return`                           (the label capture),

are embedded as deterministic parsers.  Both regexes are deterministic up
to backtracking that provably fails:

* every starred/plussed character class (`\s*`, `\s+`, `\w+`, `[^)]+`) is
  followed by a literal whose first character the class rejects (`return`
  and `case` start with non-space letters, `:` and `(` are not word
  characters, `)` is excluded from `[^)]+`), so only the maximal munch can
  possibly succeed, and
* the optional group `(?:case \w+:\s*)?` can only start where the literal
  `case ` occurs, a position where the skip-the-group alternative
  (which requires the literal `return`) is bound to fail; the embedding
  nevertheless keeps the skip alternative as an explicit fallback.

Python `\s` and `\w` are modelled on their ASCII fragment (the default
`re` patterns additionally accept some non-ASCII code points; every input
the theorems below touch is ASCII).
-/

namespace FixBinaryReturns

/-- One raw source line, terminator included. -/
abbrev Line := List Char

/-- ASCII fragment of Python regex `\s` (class `[ \t\n\v\f\r]`). -/
def isSpaceChar (c : Char) : Bool :=
  c = ' ' || c = '\t' || c = '\n' || c = '\x0b' || c = '\x0c' || c = '\r'

/-- ASCII fragment of Python regex `\w` (class `[A-Za-z0-9_]`). -/
def isWordChar (c : Char) : Bool :=
  c.isAlphanum || c = '_'

/-- Consume an exact literal from the front of a character list,
returning the remainder; this is how the embedded parsers treat the
fixed words (`case `, `return`, `val_`) of the two regexes. -/
def dropLit : List Char → List Char → Option (List Char)
  | [], s => some s
  | _ :: _, [] => none
  | c :: p, d :: s => if c = d then dropLit p s else none

/-- Python substring containment, `pat in line`. -/
def hasSub (pat : List Char) : List Char → Bool
  | [] => pat.isEmpty
  | c :: t => pat.isPrefixOf (c :: t) || hasSub pat t

/-- The literal `case ` (keyword of the optional label group). -/
def caseLit : List Char := ['c', 'a', 's', 'e', ' ']

/-- The literal `return`. -/
def returnLit : List Char := ['r', 'e', 't', 'u', 'r', 'n']

/-- The literal `val_` (the value-constructor family name). -/
def valLit : List Char := ['v', 'a', 'l', '_']

/-- The coarse gate substring `return val_` of source line 22. -/
def gateLit : List Char :=
  ['r', 'e', 't', 'u', 'r', 'n', ' ', 'v', 'a', 'l', '_']

/-- The emitted text `binary_result = ` (f-strings of source lines 32/37). -/
def asgLit : List Char :=
  ['b', 'i', 'n', 'a', 'r', 'y', '_', 'r', 'e', 's', 'u', 'l', 't',
   ' ', '=', ' ']

/-- The emitted text `goto binary_cleanup;` plus newline
(f-strings of source lines 33/38). -/
def gotoLit : List Char :=
  ['g', 'o', 't', 'o', ' ', 'b', 'i', 'n', 'a', 'r', 'y', '_',
   'c', 'l', 'e', 'a', 'n', 'u', 'p', ';', '\n']

/-- The emitted statement terminator `;` plus newline. -/
def semiNl : List Char := [';', '\n']

/-- The emitted label terminator `:` plus newline (source line 31). -/
def colonNl : List Char := [':', '\n']

/-- Four spaces: the extra indentation step of source lines 32/33. -/
def fourSp : List Char := [' ', ' ', ' ', ' ']

/-- Result of the rewrite regex of source line 24:
group 1 (the leading whitespace) and group 2 (the call expression). -/
structure MatchResult where
  indent : List Char
  expr : List Char
deriving DecidableEq, Repr

/-- The optional group `(?:case \w+:\s*)?` of the rewrite regex: literal
`case `, one or more word characters, `:`, then any whitespace.  Returns
the remainder on success.  `\w+` must be maximal (the following `:` is
not a word character) and `\s*` must be maximal (the following `return`
starts with a non-space character), so the single parse below is the
only candidate the regex backtracking could accept. -/
def parseCaseGroup (s : List Char) : Option (List Char) :=
  match dropLit caseLit s with
  | none => none
  | some s1 =>
    let w := s1.takeWhile isWordChar
    if w = [] then none
    else
      match s1.dropWhile isWordChar with
      | ':' :: s3 => some (s3.dropWhile isSpaceChar)
      | _ => none

/-- The suffix `return\s+(val_\w+\([^)]+\));` of the rewrite regex,
returning group 2 on success.  `[^)]+` is maximal: it can only stop
immediately before a `)` (the class excludes `)`), so the first `)`
after the opening parenthesis is the unique candidate for `\)`, and the
following character must be `;`.  Everything after that `;` is ignored,
as `re.match` anchors only the start of the line. -/
def parseReturnTail (s : List Char) : Option (List Char) :=
  match dropLit returnLit s with
  | none => none
  | some s1 =>
    let sp := s1.takeWhile isSpaceChar
    if sp = [] then none
    else
      match dropLit valLit (s1.dropWhile isSpaceChar) with
      | none => none
      | some s3 =>
        let w := s3.takeWhile isWordChar
        if w = [] then none
        else
          match s3.dropWhile isWordChar with
          | '(' :: s4 =>
            let arg := s4.takeWhile (fun c => !(c = ')' : Bool))
            if arg = [] then none
            else
              match s4.dropWhile (fun c => !(c = ')' : Bool)) with
              | ')' :: ';' :: _ => some (valLit ++ w ++ '(' :: arg ++ [')'])
              | _ => none
          | _ => none

/-- The rewrite regex `(\s*)(?:case \w+:\s*)?return\s+(val_\w+\([^)]+\));`
applied with `re.match` semantics (anchored at the start of the line).
Group 1 (`\s*`) is the maximal leading whitespace: both continuations
start with non-space literals, so shorter captures provably fail.  When
the optional group parses but the continuation fails, the regex engine
retries without the group; that fallback is kept explicitly. -/
def matchReturnVal (line : List Char) : Option MatchResult :=
  let indent := line.takeWhile isSpaceChar
  let rest := line.dropWhile isSpaceChar
  match parseCaseGroup rest with
  | some rest2 =>
    match parseReturnTail rest2 with
    | some e => some ⟨indent, e⟩
    | none => (parseReturnTail rest).map (fun e => ⟨indent, e⟩)
  | none => (parseReturnTail rest).map (fun e => ⟨indent, e⟩)

/-- The label regex `(\s*)(case \w+):\s*return` of source line 29,
returning group 1 (the leading whitespace) and group 2 (`case \w+`). -/
def parseCaseLabel (line : List Char) : Option (List Char × List Char) :=
  let indent := line.takeWhile isSpaceChar
  let rest := line.dropWhile isSpaceChar
  match dropLit caseLit rest with
  | none => none
  | some s1 =>
    let w := s1.takeWhile isWordChar
    if w = [] then none
    else
      match s1.dropWhile isWordChar with
      | ':' :: s3 =>
        match dropLit returnLit (s3.dropWhile isSpaceChar) with
        | some _ => some (indent, caseLit ++ w)
        | none => none
      | _ => none

/-- The per-line body of the driver loop (source lines 22-42): inside the
window and past the `return val_` substring gate, a regex match is
replaced by the assignment/goto pair (with the `case` label reproduced
on its own line first when the line contains `case ` and the label regex
fires); every other line is appended unchanged. -/
def processLine (inRange : Bool) (line : Line) : List Line :=
  if inRange && hasSub gateLit line then
    match matchReturnVal line with
    | some m =>
      if hasSub caseLit line then
        match parseCaseLabel line with
        | some (ci, cl) =>
          [ci ++ cl ++ colonNl,
           m.indent ++ fourSp ++ asgLit ++ m.expr ++ semiNl,
           m.indent ++ fourSp ++ gotoLit]
        | none => [line]
      else
        [m.indent ++ asgLit ++ m.expr ++ semiNl,
         m.indent ++ gotoLit]
    | none => [line]
  else [line]

/-- The window-flag update of source lines 16-20, in source order: first
`if i == 175: in_target_range = True`, then
`if i >= 605: in_target_range = False`. -/
def flagStep (i : Nat) (flag : Bool) : Bool :=
  let f1 := if i = 175 then true else flag
  if 605 ≤ i then false else f1

/-- The driver loop from line number `i` onwards, carrying the mutable
`in_target_range` flag exactly as the source does. -/
def runFrom : Nat → Bool → List Line → List Line
  | _, _, [] => []
  | i, flag, l :: ls =>
    let f := flagStep i flag
    processLine f l ++ runFrom (i + 1) f ls

/-- The whole transformation: `enumerate(lines, 1)` starts the counter at
1 and `in_target_range` starts `False` (source lines 11-14). -/
def rewriteLines (ls : List Line) : List Line := runFrom 1 false ls

/-- Value of the `in_target_range` flag after the updates of line
number `i` (so `flagAfter i` is the flag the body of iteration `i`
observes). -/
def flagAfter : Nat → Bool
  | 0 => false
  | n + 1 => flagStep (n + 1) (flagAfter n)

/-- Interval predicate the spec ascribes to the Region Selector: the
window is exactly the lines numbered 175 (inclusive) to 605 (exclusive). -/
def windowOpen (i : Nat) : Bool := decide (175 ≤ i ∧ i < 605)

/-- Stateless rendering of the driver, per the spec words for the Region
Selector: each line is processed with the pure interval predicate of its
own 1-based number, no flag threaded through. -/
def intervalGo : Nat → List Line → List Line
  | _, [] => []
  | i, l :: ls => processLine (windowOpen i) l ++ intervalGo (i + 1) ls

/-- Stateless rendering of the spec pass-through invariant: a line whose
number is outside the window is copied byte-for-byte, one output line
per input line; in-window lines go through the classifier/emitter. -/
def outsideGo : Nat → List Line → List Line
  | _, [] => []
  | i, l :: ls =>
    (if windowOpen i then processLine true l else [l]) ++ outsideGo (i + 1) ls

/-- Effect of one whole run of the script on the file, with the read
modelled as fallible (`none` = the file is missing/unreadable, so the
`open` of source line 5 raises).  The Python exception propagates
uncaught, so the transform and the truncating write of source lines
44-46 are never reached: the pair returned is (file contents afterwards,
whether the write phase ran). -/
def runScript (file : Option (List Line)) : Option (List Line) × Bool :=
  match file with
  | none => (file, false)
  | some ls => (some (rewriteLines ls), true)

/-! ## List utilities -/

theorem mem_takeWhile_pred {α : Type} {p : α → Bool} :
    ∀ {l : List α} {a : α}, a ∈ l.takeWhile p → p a = true := by
  intro l
  induction l with
  | nil => intro a h; simp [List.takeWhile] at h
  | cons c t ih =>
    intro a h
    by_cases hc : p c
    · rw [List.takeWhile_cons_of_pos hc] at h
      rcases List.mem_cons.mp h with rfl | h2
      · exact hc
      · exact ih h2
    · rw [List.takeWhile_cons_of_neg hc] at h
      simp at h

theorem isPrefixOf_app (p r : List Char) : p.isPrefixOf (p ++ r) = true := by
  induction p with
  | nil => simp [List.isPrefixOf]
  | cons c t ih => simp [List.isPrefixOf, ih]

theorem hasSub_app (pat : List Char) :
    ∀ (A s : List Char), pat.isPrefixOf s = true → hasSub pat (A ++ s) = true := by
  intro A
  induction A with
  | nil =>
    intro s h
    cases s with
    | nil =>
      cases pat with
      | nil => simp [hasSub]
      | cons c t => simp [List.isPrefixOf] at h
    | cons c t => simp [hasSub, h]
  | cons a A ih =>
    intro s h
    have h2 := ih s h
    simp [hasSub, h2]

theorem dropLit_self : ∀ (p r : List Char), dropLit p (p ++ r) = some r := by
  intro p
  induction p with
  | nil => intro r; simp [dropLit]
  | cons c t ih => intro r; simpa [dropLit] using ih r

/-! ## Parser computation lemmas

These compute the embedded regex matchers on lines of the two rewritable
shapes, and show that they fail on lines of the shapes the rewriter must
leave alone. -/

/-- Computation of the `return\s+(val_\w+\([^)]+\));` suffix parser on a
well-formed bare return tail. -/
theorem parseReturnTail_pos (sp w arg tail : List Char)
    (hsp : ∀ c ∈ sp, isSpaceChar c = true) (hsp0 : sp ≠ [])
    (hw : ∀ c ∈ w, isWordChar c = true) (hw0 : w ≠ [])
    (harg : ')' ∉ arg) (harg0 : arg ≠ []) :
    parseReturnTail
      (returnLit ++ (sp ++ (valLit ++ (w ++ '(' :: (arg ++ ')' :: ';' :: tail)))))
      = some (valLit ++ w ++ '(' :: arg ++ [')']) := by
  have hv : isSpaceChar 'v' = false := by decide
  have hp : isWordChar '(' = false := by decide
  have htw : (valLit ++ (w ++ '(' :: (arg ++ ')' :: ';' :: tail))).takeWhile
      isSpaceChar = [] := by
    simp [valLit, hv]
  have hdw : (valLit ++ (w ++ '(' :: (arg ++ ')' :: ';' :: tail))).dropWhile
      isSpaceChar = valLit ++ (w ++ '(' :: (arg ++ ')' :: ';' :: tail)) := by
    simp [valLit, hv]
  have htw2 : (w ++ '(' :: (arg ++ ')' :: ';' :: tail)).takeWhile isWordChar
      = w := by
    rw [List.takeWhile_append_of_pos hw]
    simp [hp]
  have hdw2 : (w ++ '(' :: (arg ++ ')' :: ';' :: tail)).dropWhile isWordChar
      = '(' :: (arg ++ ')' :: ';' :: tail) := by
    rw [List.dropWhile_append_of_pos hw]
    simp [hp]
  have hargp : ∀ c ∈ arg, (!(c = ')' : Bool)) = true := by
    intro c hc
    have : ¬ (c = ')') := fun h => harg (h ▸ hc)
    simp [this]
  have htw3 : (arg ++ ')' :: ';' :: tail).takeWhile (fun c => !(c = ')' : Bool))
      = arg := by
    rw [List.takeWhile_append_of_pos hargp]
    simp
  have hdw3 : (arg ++ ')' :: ';' :: tail).dropWhile (fun c => !(c = ')' : Bool))
      = ')' :: ';' :: tail := by
    rw [List.dropWhile_append_of_pos hargp]
    simp
  simp [parseReturnTail, dropLit_self, List.takeWhile_append_of_pos hsp,
    List.dropWhile_append_of_pos hsp, htw, hdw, htw2, hdw2, htw3, hdw3,
    hsp0, hw0, harg0]

/-- The rewrite regex on a Shape A (bare return) line: leading
whitespace, `return`, whitespace, a `val_` call with a non-empty
argument free of `)`, then `;` and arbitrary trailing text. -/
theorem matchReturnVal_shapeA (indent sp w arg tail : List Char)
    (hind : ∀ c ∈ indent, isSpaceChar c = true)
    (hsp : ∀ c ∈ sp, isSpaceChar c = true) (hsp0 : sp ≠ [])
    (hw : ∀ c ∈ w, isWordChar c = true) (hw0 : w ≠ [])
    (harg : ')' ∉ arg) (harg0 : arg ≠ []) :
    matchReturnVal
      (indent ++ (returnLit ++ (sp ++ (valLit ++ (w ++ '(' :: (arg ++ ')' :: ';' :: tail))))))
      = some ⟨indent, valLit ++ w ++ '(' :: arg ++ [')']⟩ := by
  have hr : isSpaceChar 'r' = false := by decide
  have hcr : ¬ (('c' : Char) = 'r') := by decide
  have htw : (indent ++ (returnLit ++ (sp ++ (valLit ++ (w ++ '(' ::
      (arg ++ ')' :: ';' :: tail)))))).takeWhile isSpaceChar = indent := by
    rw [List.takeWhile_append_of_pos hind]
    simp [returnLit, hr]
  have hdw : (indent ++ (returnLit ++ (sp ++ (valLit ++ (w ++ '(' ::
      (arg ++ ')' :: ';' :: tail)))))).dropWhile isSpaceChar
      = returnLit ++ (sp ++ (valLit ++ (w ++ '(' :: (arg ++ ')' :: ';' :: tail)))) := by
    rw [List.dropWhile_append_of_pos hind]
    simp [returnLit, hr]
  have hcg : parseCaseGroup
      (returnLit ++ (sp ++ (valLit ++ (w ++ '(' :: (arg ++ ')' :: ';' :: tail)))))
      = none := by
    simp [parseCaseGroup, returnLit, caseLit, dropLit, hcr]
  have hpt := parseReturnTail_pos sp w arg tail hsp hsp0 hw hw0 harg harg0
  simp [matchReturnVal, htw, hdw, hcg, hpt]

/-- The rewrite regex on a Shape B (label plus return) line: leading
whitespace, `case`, a label, `:`, whitespace, then the Shape A suffix. -/
theorem matchReturnVal_shapeB (indent w1 sp1 sp2 w arg tail : List Char)
    (hind : ∀ c ∈ indent, isSpaceChar c = true)
    (hw1 : ∀ c ∈ w1, isWordChar c = true) (hw10 : w1 ≠ [])
    (hsp1 : ∀ c ∈ sp1, isSpaceChar c = true)
    (hsp2 : ∀ c ∈ sp2, isSpaceChar c = true) (hsp20 : sp2 ≠ [])
    (hw : ∀ c ∈ w, isWordChar c = true) (hw0 : w ≠ [])
    (harg : ')' ∉ arg) (harg0 : arg ≠ []) :
    matchReturnVal
      (indent ++ (caseLit ++ (w1 ++ ':' :: (sp1 ++
        (returnLit ++ (sp2 ++ (valLit ++ (w ++ '(' :: (arg ++ ')' :: ';' :: tail)))))))))
      = some ⟨indent, valLit ++ w ++ '(' :: arg ++ [')']⟩ := by
  have hc : isSpaceChar 'c' = false := by decide
  have hr : isSpaceChar 'r' = false := by decide
  have hcolon : isWordChar ':' = false := by decide
  have htw : (indent ++ (caseLit ++ (w1 ++ ':' :: (sp1 ++
      (returnLit ++ (sp2 ++ (valLit ++ (w ++ '(' :: (arg ++ ')' :: ';' :: tail))))))))).takeWhile
      isSpaceChar = indent := by
    rw [List.takeWhile_append_of_pos hind]
    simp [caseLit, hc]
  have hdw : (indent ++ (caseLit ++ (w1 ++ ':' :: (sp1 ++
      (returnLit ++ (sp2 ++ (valLit ++ (w ++ '(' :: (arg ++ ')' :: ';' :: tail))))))))).dropWhile
      isSpaceChar
      = caseLit ++ (w1 ++ ':' :: (sp1 ++
        (returnLit ++ (sp2 ++ (valLit ++ (w ++ '(' :: (arg ++ ')' :: ';' :: tail))))))) := by
    rw [List.dropWhile_append_of_pos hind]
    simp [caseLit, hc]
  have hcg : parseCaseGroup
      (caseLit ++ (w1 ++ ':' :: (sp1 ++
        (returnLit ++ (sp2 ++ (valLit ++ (w ++ '(' :: (arg ++ ')' :: ';' :: tail))))))))
      = some (returnLit ++ (sp2 ++ (valLit ++ (w ++ '(' :: (arg ++ ')' :: ';' :: tail))))) := by
    have htw1 : (w1 ++ ':' :: (sp1 ++
        (returnLit ++ (sp2 ++ (valLit ++ (w ++ '(' :: (arg ++ ')' :: ';' :: tail))))))).takeWhile
        isWordChar = w1 := by
      rw [List.takeWhile_append_of_pos hw1]
      simp [hcolon]
    have hdw1 : (w1 ++ ':' :: (sp1 ++
        (returnLit ++ (sp2 ++ (valLit ++ (w ++ '(' :: (arg ++ ')' :: ';' :: tail))))))).dropWhile
        isWordChar = ':' :: (sp1 ++
        (returnLit ++ (sp2 ++ (valLit ++ (w ++ '(' :: (arg ++ ')' :: ';' :: tail)))))) := by
      rw [List.dropWhile_append_of_pos hw1]
      simp [hcolon]
    have hdsp1 : (sp1 ++
        (returnLit ++ (sp2 ++ (valLit ++ (w ++ '(' :: (arg ++ ')' :: ';' :: tail)))))).dropWhile
        isSpaceChar
        = returnLit ++ (sp2 ++ (valLit ++ (w ++ '(' :: (arg ++ ')' :: ';' :: tail)))) := by
      rw [List.dropWhile_append_of_pos hsp1]
      simp [returnLit, hr]
    simp [parseCaseGroup, dropLit_self, htw1, hdw1, hdsp1, hw10]
  have hpt := parseReturnTail_pos sp2 w arg tail hsp2 hsp20 hw hw0 harg harg0
  simp [matchReturnVal, htw, hdw, hcg, hpt]

/-- The label regex on a Shape B line yields the leading whitespace and
the `case <label>` text. -/
theorem parseCaseLabel_shapeB (indent w1 sp1 rest : List Char)
    (hind : ∀ c ∈ indent, isSpaceChar c = true)
    (hw1 : ∀ c ∈ w1, isWordChar c = true) (hw10 : w1 ≠ [])
    (hsp1 : ∀ c ∈ sp1, isSpaceChar c = true) :
    parseCaseLabel (indent ++ (caseLit ++ (w1 ++ ':' :: (sp1 ++ (returnLit ++ rest)))))
      = some (indent, caseLit ++ w1) := by
  have hc : isSpaceChar 'c' = false := by decide
  have hr : isSpaceChar 'r' = false := by decide
  have hcolon : isWordChar ':' = false := by decide
  have htw : (indent ++ (caseLit ++ (w1 ++ ':' :: (sp1 ++
      (returnLit ++ rest))))).takeWhile isSpaceChar = indent := by
    rw [List.takeWhile_append_of_pos hind]
    simp [caseLit, hc]
  have hdw : (indent ++ (caseLit ++ (w1 ++ ':' :: (sp1 ++
      (returnLit ++ rest))))).dropWhile isSpaceChar
      = caseLit ++ (w1 ++ ':' :: (sp1 ++ (returnLit ++ rest))) := by
    rw [List.dropWhile_append_of_pos hind]
    simp [caseLit, hc]
  have htw1 : (w1 ++ ':' :: (sp1 ++ (returnLit ++ rest))).takeWhile isWordChar
      = w1 := by
    rw [List.takeWhile_append_of_pos hw1]
    simp [hcolon]
  have hdw1 : (w1 ++ ':' :: (sp1 ++ (returnLit ++ rest))).dropWhile isWordChar
      = ':' :: (sp1 ++ (returnLit ++ rest)) := by
    rw [List.dropWhile_append_of_pos hw1]
    simp [hcolon]
  have hdsp1 : (sp1 ++ (returnLit ++ rest)).dropWhile isSpaceChar
      = returnLit ++ rest := by
    rw [List.dropWhile_append_of_pos hsp1]
    simp [returnLit, hr]
  simp [parseCaseLabel, htw, hdw, dropLit_self, htw1, hdw1, hdsp1, hw10]

/-- The rewrite regex fails on any line whose first non-space character
is neither `c` nor `r`: both shapes require the literal `case ` or
`return` right after the captured whitespace. -/
theorem matchReturnVal_none_head (S rest : List Char) (c : Char)
    (hS : ∀ a ∈ S, isSpaceChar a = true) (h1 : isSpaceChar c = false)
    (h2 : ¬ (('c' : Char) = c)) (h3 : ¬ (('r' : Char) = c)) :
    matchReturnVal (S ++ c :: rest) = none := by
  have htw : (S ++ c :: rest).takeWhile isSpaceChar = S := by
    rw [List.takeWhile_append_of_pos hS]
    simp [h1]
  have hdw : (S ++ c :: rest).dropWhile isSpaceChar = c :: rest := by
    rw [List.dropWhile_append_of_pos hS]
    simp [h1]
  have hcg : parseCaseGroup (c :: rest) = none := by
    simp [parseCaseGroup, caseLit, dropLit, h2]
  have hrt : parseReturnTail (c :: rest) = none := by
    simp [parseReturnTail, returnLit, dropLit, h3]
  simp [matchReturnVal, htw, hdw, hcg, hrt]

/-- The rewrite regex fails on an emitted label line
`<spaces>case <label>:\n`: the optional group parses, but nothing
follows for `return`, and the skip-the-group alternative dies on the
`c` of `case`. -/
theorem matchReturnVal_none_label (S w1 : List Char)
    (hS : ∀ a ∈ S, isSpaceChar a = true)
    (hw1 : ∀ c ∈ w1, isWordChar c = true) (hw10 : w1 ≠ []) :
    matchReturnVal (S ++ (caseLit ++ (w1 ++ [':', '\n']))) = none := by
  have hc : isSpaceChar 'c' = false := by decide
  have hcolon : isWordChar ':' = false := by decide
  have hcr : ¬ (('r' : Char) = 'c') := by decide
  have htw : (S ++ (caseLit ++ (w1 ++ [':', '\n']))).takeWhile isSpaceChar
      = S := by
    rw [List.takeWhile_append_of_pos hS]
    simp [caseLit, hc]
  have hdw : (S ++ (caseLit ++ (w1 ++ [':', '\n']))).dropWhile isSpaceChar
      = caseLit ++ (w1 ++ [':', '\n']) := by
    rw [List.dropWhile_append_of_pos hS]
    simp [caseLit, hc]
  have htw1 : (w1 ++ [':', '\n']).takeWhile isWordChar = w1 := by
    rw [List.takeWhile_append_of_pos hw1]
    simp [hcolon]
  have hdw1 : (w1 ++ [':', '\n']).dropWhile isWordChar = [':', '\n'] := by
    rw [List.dropWhile_append_of_pos hw1]
    simp [hcolon]
  have hcg : parseCaseGroup (caseLit ++ (w1 ++ [':', '\n'])) = some [] := by
    simp [parseCaseGroup, dropLit_self, htw1, hdw1, hw10, isSpaceChar]
  have hrt0 : parseReturnTail ([] : List Char) = none := by
    simp [parseReturnTail, returnLit, dropLit]
  have hrt : parseReturnTail (caseLit ++ (w1 ++ [':', '\n'])) = none := by
    simp [parseReturnTail, returnLit, caseLit, dropLit, hcr]
  simp [matchReturnVal, htw, hdw, hcg, hrt0, hrt]

/-- Lines the rewrite regex rejects are passed through unchanged, inside
or outside the window. -/
theorem processLine_of_none {l : Line} (h : matchReturnVal l = none)
    (b : Bool) : processLine b l = [l] := by
  simp [processLine, h]

/-- Outside the window every line is passed through unchanged. -/
theorem processLine_false (l : Line) : processLine false l = [l] := by
  simp [processLine]

/-- The per-line step never produces an empty replacement. -/
theorem processLine_ne_nil (b : Bool) (l : Line) : processLine b l ≠ [] := by
  unfold processLine
  split
  · split
    · split
      · split
        · simp
        · simp
      · simp
    · simp
  · simp

/-- A successful rewrite match captures exactly the maximal leading
whitespace of the line as its indent. -/
theorem matchReturnVal_some_indent {l : Line} {m : MatchResult}
    (h : matchReturnVal l = some m) :
    m.indent = l.takeWhile isSpaceChar := by
  unfold matchReturnVal at h
  dsimp only [] at h
  split at h
  · split at h
    · cases h
      rfl
    · rcases Option.map_eq_some'.mp h with ⟨e, _, he⟩
      rw [← he]
  · rcases Option.map_eq_some'.mp h with ⟨e, _, he⟩
    rw [← he]

/-- Every character of a captured indent is whitespace. -/
theorem matchReturnVal_indent_space {l : Line} {m : MatchResult}
    (h : matchReturnVal l = some m) :
    ∀ c ∈ m.indent, isSpaceChar c = true := by
  intro c hc
  rw [matchReturnVal_some_indent h] at hc
  exact mem_takeWhile_pred hc

/-- A successful label match captures whitespace as group 1 and
`case ` followed by a non-empty word as group 2. -/
theorem parseCaseLabel_some {l : Line} {ci cl : List Char}
    (h : parseCaseLabel l = some (ci, cl)) :
    (∀ c ∈ ci, isSpaceChar c = true) ∧
      ∃ w1, cl = caseLit ++ w1 ∧ w1 ≠ [] ∧ ∀ c ∈ w1, isWordChar c = true := by
  unfold parseCaseLabel at h
  dsimp only [] at h
  split at h
  · exact absurd h (by simp)
  · split at h
    · exact absurd h (by simp)
    · split at h
      · split at h
        · cases h
          refine ⟨fun c hc => mem_takeWhile_pred hc,
            _, rfl, ?_, fun c hc => mem_takeWhile_pred hc⟩
          assumption
        · exact absurd h (by simp)
      · exact absurd h (by simp)

/-- The rewrite regex fails on an emitted assignment line
`<spaces>binary_result = <expr>;\n`: after the whitespace the line shows
`b`, where both shapes need `case ` or `return`. -/
theorem matchReturnVal_none_asg (S e : List Char)
    (hS : ∀ a ∈ S, isSpaceChar a = true) :
    matchReturnVal (S ++ asgLit ++ e ++ semiNl) = none := by
  have h : S ++ asgLit ++ e ++ semiNl
      = S ++ 'b' :: (['i', 'n', 'a', 'r', 'y', '_', 'r', 'e', 's', 'u', 'l',
          't', ' ', '=', ' '] ++ (e ++ semiNl)) := by
    simp [asgLit]
  rw [h]
  exact matchReturnVal_none_head S _ 'b' hS (by decide) (by decide) (by decide)

/-- The rewrite regex fails on an emitted goto line
`<spaces>goto binary_cleanup;\n`. -/
theorem matchReturnVal_none_goto (S : List Char)
    (hS : ∀ a ∈ S, isSpaceChar a = true) :
    matchReturnVal (S ++ gotoLit) = none := by
  have h : S ++ gotoLit
      = S ++ 'g' :: ['o', 't', 'o', ' ', 'b', 'i', 'n', 'a', 'r', 'y', '_',
          'c', 'l', 'e', 'a', 'n', 'u', 'p', ';', '\n'] := by
    simp [gotoLit]
  rw [h]
  exact matchReturnVal_none_head S _ 'g' hS (by decide) (by decide) (by decide)

/-! ## Driver lemmas -/

/-- The one-shot flag of the source driver opens at line 175 and closes
at line 605: after the updates of iteration `i` it equals the pure
interval test `175 ≤ i ∧ i < 605`. -/
theorem flagAfter_eq (i : Nat) : flagAfter i = windowOpen i := by
  induction i with
  | zero => decide
  | succ n ih =>
    show flagStep (n + 1) (flagAfter n) = windowOpen (n + 1)
    rw [ih]
    unfold flagStep windowOpen
    rcases Nat.lt_or_ge (n + 1) 605 with h2 | h2
    · rw [if_neg (by omega)]
      by_cases h3 : n + 1 = 175
      · rw [if_pos h3]
        exact (decide_eq_true (by omega)).symm
      · rw [if_neg h3]
        exact decide_eq_decide.mpr (by omega)
    · rw [if_pos (by omega)]
      exact (decide_eq_false (by omega)).symm

/-- The stateful driver run agrees with the stateless interval
rendering from any position. -/
theorem runFrom_eq_interval :
    ∀ (ls : List Line) (i : Nat),
      runFrom (i + 1) (flagAfter i) ls = intervalGo (i + 1) ls := by
  intro ls
  induction ls with
  | nil => intro i; rfl
  | cons l t ih =>
    intro i
    have hstep : flagStep (i + 1) (flagAfter i) = windowOpen (i + 1) := by
      rw [show flagStep (i + 1) (flagAfter i) = flagAfter (i + 1) from rfl,
        flagAfter_eq]
    have ih2 := ih (i + 1)
    rw [flagAfter_eq] at ih2
    simp only [runFrom, intervalGo, hstep]
    rw [ih2]

/-- The whole transformation is the stateless interval rendering. -/
theorem rewriteLines_eq_interval (ls : List Line) :
    rewriteLines ls = intervalGo 1 ls := by
  have h := runFrom_eq_interval ls 0
  simpa [rewriteLines] using h

/-- The interval rendering is the pass-through rendering: out-of-window
lines are literally copied. -/
theorem intervalGo_eq_outside :
    ∀ (ls : List Line) (i : Nat), intervalGo i ls = outsideGo i ls := by
  intro ls
  induction ls with
  | nil => intro i; rfl
  | cons l t ih =>
    intro i
    simp only [intervalGo, outsideGo, ih]
    congr 1
    cases hwi : windowOpen i with
    | false => simp [processLine_false]
    | true => simp

/-! ## Idempotence machinery -/

theorem intervalGo_append :
    ∀ (A B : List Line) (j : Nat),
      intervalGo j (A ++ B) = intervalGo j A ++ intervalGo (j + A.length) B := by
  intro A
  induction A with
  | nil => intro B j; simp [intervalGo]
  | cons a A ih =>
    intro B j
    show processLine (windowOpen j) a ++ intervalGo (j + 1) (A ++ B)
      = (processLine (windowOpen j) a ++ intervalGo (j + 1) A)
        ++ intervalGo (j + (A.length + 1)) B
    rw [ih, List.append_assoc]
    have h : j + 1 + A.length = j + (A.length + 1) := by omega
    rw [h]

theorem intervalGo_inert :
    ∀ (A : List Line) (j : Nat), (∀ x ∈ A, matchReturnVal x = none) →
      intervalGo j A = A := by
  intro A
  induction A with
  | nil => intro j _; rfl
  | cons a A ih =>
    intro j h
    simp only [intervalGo]
    rw [processLine_of_none (h a (List.mem_cons_self a A)) _,
      ih (j + 1) (fun x hx => h x (List.mem_cons_of_mem a hx))]
    rfl

/-- Inside the window, each line is either passed through verbatim or
replaced by lines the rewrite regex can never match again. -/
theorem processLine_true_cases (l : Line) :
    processLine true l = [l] ∨
      ∀ x ∈ processLine true l, matchReturnVal x = none := by
  by_cases hg : hasSub gateLit l = true
  · cases hm : matchReturnVal l with
    | none => exact Or.inl (processLine_of_none hm true)
    | some m =>
      have hindsp := matchReturnVal_indent_space hm
      by_cases hc : hasSub caseLit l = true
      · cases hcl : parseCaseLabel l with
        | none => exact Or.inl (by simp [processLine, hg, hm, hc, hcl])
        | some p =>
          obtain ⟨ci, cl⟩ := p
          right
          intro x hx
          have hout : processLine true l
              = [ci ++ cl ++ colonNl,
                 m.indent ++ fourSp ++ asgLit ++ m.expr ++ semiNl,
                 m.indent ++ fourSp ++ gotoLit] := by
            simp [processLine, hg, hm, hc, hcl]
          rw [hout] at hx
          obtain ⟨hci, w1, hcw, hw10, hw1⟩ := parseCaseLabel_some hcl
          have hS4 : ∀ a ∈ m.indent ++ fourSp, isSpaceChar a = true := by
            intro a ha
            rcases List.mem_append.mp ha with ha | ha
            · exact hindsp a ha
            · fin_cases ha <;> decide
          simp only [List.mem_cons, List.not_mem_nil, or_false] at hx
          rcases hx with rfl | rfl | rfl
          · have hform : ci ++ cl ++ colonNl
                = ci ++ (caseLit ++ (w1 ++ [':', '\n'])) := by
              rw [hcw]
              simp [colonNl]
            rw [hform]
            exact matchReturnVal_none_label ci w1 hci hw1 hw10
          · have hform : m.indent ++ fourSp ++ asgLit ++ m.expr ++ semiNl
                = (m.indent ++ fourSp) ++ asgLit ++ m.expr ++ semiNl := by
              simp
            rw [hform]
            exact matchReturnVal_none_asg _ _ hS4
          · have hform : m.indent ++ fourSp ++ gotoLit
                = (m.indent ++ fourSp) ++ gotoLit := by
              simp
            rw [hform]
            exact matchReturnVal_none_goto _ hS4
      · right
        intro x hx
        have hout : processLine true l
            = [m.indent ++ asgLit ++ m.expr ++ semiNl, m.indent ++ gotoLit] := by
          simp [processLine, hg, hm, hc]
        rw [hout] at hx
        simp only [List.mem_cons, List.not_mem_nil, or_false] at hx
        rcases hx with rfl | rfl
        · exact matchReturnVal_none_asg _ _ hindsp
        · exact matchReturnVal_none_goto _ hindsp
  · exact Or.inl (by simp [processLine, hg])

/-- One rewritten chunk is a fixed point of the interval rendering at
any later position (no inserted line can be rewritten again). -/
theorem intervalGo_processLine (l : Line) (i j : Nat) (hij : i ≤ j)
    (h175 : i < 175 → i = j) :
    intervalGo j (processLine (windowOpen i) l) = processLine (windowOpen i) l := by
  cases hwi : windowOpen i with
  | true =>
    rcases processLine_true_cases l with hcase | hcase
    · rw [hcase]
      cases hwj : windowOpen j with
      | true => simp [intervalGo, hwj, hcase]
      | false => simp [intervalGo, hwj, processLine_false]
    · exact intervalGo_inert _ j hcase
  | false =>
    have hni : ¬ (175 ≤ i ∧ i < 605) := by
      simpa [windowOpen] using hwi
    have hwj : windowOpen j = false := by
      by_cases hi : i < 175
      · have hje := h175 hi
        exact decide_eq_false (by omega)
      · exact decide_eq_false (by omega)
    rw [processLine_false]
    simp [intervalGo, hwj, processLine_false]

/-- Core idempotence: rerunning the interval rendering over its own
output from any position at least as large is the identity (positions
strictly before the window are unshifted, later ones only shift right). -/
theorem intervalGo_idem :
    ∀ (ls : List Line) (i j : Nat), i ≤ j → (i < 175 → i = j) →
      intervalGo j (intervalGo i ls) = intervalGo i ls := by
  intro ls
  induction ls with
  | nil => intro i j _ _; rfl
  | cons l t ih =>
    intro i j hij h175
    have hlen : 0 < (processLine (windowOpen i) l).length :=
      List.length_pos.mpr (processLine_ne_nil _ l)
    show intervalGo j (processLine (windowOpen i) l ++ intervalGo (i + 1) t) = _
    rw [intervalGo_append, intervalGo_processLine l i j hij h175]
    congr 1
    apply ih (i + 1) (j + (processLine (windowOpen i) l).length) (by omega)
    intro hi1
    have hi : i < 175 := by omega
    have hj : i = j := h175 hi
    have hwi : windowOpen i = false := decide_eq_false (by omega)
    rw [hwi, processLine_false]
    simp
    omega

/-! ## Rewrite output characterization -/

/-- Inside the window, a Shape A line that passes the substring gate and
contains no `case ` substring is replaced by the assignment/goto pair,
both at the captured indentation; nothing after the matched `;` (the
`tail`) survives. -/
theorem processLine_bareA (indent sp w arg tail : List Char)
    (hind : ∀ c ∈ indent, isSpaceChar c = true)
    (hsp : ∀ c ∈ sp, isSpaceChar c = true) (hsp0 : sp ≠ [])
    (hw : ∀ c ∈ w, isWordChar c = true) (hw0 : w ≠ [])
    (harg : ')' ∉ arg) (harg0 : arg ≠ [])
    (hgate : hasSub gateLit
      (indent ++ (returnLit ++ (sp ++ (valLit ++ (w ++ '(' :: (arg ++ ')' :: ';' :: tail)))))) = true)
    (hcase : hasSub caseLit
      (indent ++ (returnLit ++ (sp ++ (valLit ++ (w ++ '(' :: (arg ++ ')' :: ';' :: tail)))))) = false) :
    processLine true
      (indent ++ (returnLit ++ (sp ++ (valLit ++ (w ++ '(' :: (arg ++ ')' :: ';' :: tail))))))
      = [indent ++ asgLit ++ (valLit ++ w ++ '(' :: arg ++ [')']) ++ semiNl,
         indent ++ gotoLit] := by
  have hm := matchReturnVal_shapeA indent sp w arg tail hind hsp hsp0 hw hw0 harg harg0
  simp [processLine, hgate, hm, hcase]

/-- Inside the window, a Shape B line that passes the substring gate is
replaced by the label line plus the assignment/goto pair indented four
spaces deeper; nothing after the matched `;` (the `tail`) survives. -/
theorem processLine_caseB (indent w1 sp1 sp2 w arg tail : List Char)
    (hind : ∀ c ∈ indent, isSpaceChar c = true)
    (hw1 : ∀ c ∈ w1, isWordChar c = true) (hw10 : w1 ≠ [])
    (hsp1 : ∀ c ∈ sp1, isSpaceChar c = true)
    (hsp2 : ∀ c ∈ sp2, isSpaceChar c = true) (hsp20 : sp2 ≠ [])
    (hw : ∀ c ∈ w, isWordChar c = true) (hw0 : w ≠ [])
    (harg : ')' ∉ arg) (harg0 : arg ≠ [])
    (hgate : hasSub gateLit
      (indent ++ (caseLit ++ (w1 ++ ':' :: (sp1 ++
        (returnLit ++ (sp2 ++ (valLit ++ (w ++ '(' :: (arg ++ ')' :: ';' :: tail))))))))) = true) :
    processLine true
      (indent ++ (caseLit ++ (w1 ++ ':' :: (sp1 ++
        (returnLit ++ (sp2 ++ (valLit ++ (w ++ '(' :: (arg ++ ')' :: ';' :: tail)))))))))
      = [indent ++ (caseLit ++ w1) ++ colonNl,
         indent ++ fourSp ++ asgLit ++ (valLit ++ w ++ '(' :: arg ++ [')']) ++ semiNl,
         indent ++ fourSp ++ gotoLit] := by
  have hm := matchReturnVal_shapeB indent w1 sp1 sp2 w arg tail hind hw1 hw10
    hsp1 hsp2 hsp20 hw hw0 harg harg0
  have hlab := parseCaseLabel_shapeB indent w1 sp1
    (sp2 ++ (valLit ++ (w ++ '(' :: (arg ++ ')' :: ';' :: tail)))) hind hw1 hw10 hsp1
  have hcs : hasSub caseLit
      (indent ++ (caseLit ++ (w1 ++ ':' :: (sp1 ++
        (returnLit ++ (sp2 ++ (valLit ++ (w ++ '(' :: (arg ++ ')' :: ';' :: tail))))))))) = true :=
    hasSub_app caseLit indent _ (isPrefixOf_app caseLit _)
  simp [processLine, hgate, hm, hcs, hlab]

/-- The suffix parser rejects a call whose argument closes a nested
parenthesis not immediately followed by `;`: the class `[^)]+` must stop
at the first `)`, where the regex then demands `\);`. -/
theorem parseReturnTail_none_nested (sp w p rest2 : List Char)
    (hsp : ∀ c ∈ sp, isSpaceChar c = true) (hsp0 : sp ≠ [])
    (hw : ∀ c ∈ w, isWordChar c = true) (hw0 : w ≠ [])
    (hp : ')' ∉ p) (hr2 : rest2.head? ≠ some ';') :
    parseReturnTail
      (returnLit ++ (sp ++ (valLit ++ (w ++ '(' :: (p ++ ')' :: rest2)))))
      = none := by
  have hv : isSpaceChar 'v' = false := by decide
  have hpar : isWordChar '(' = false := by decide
  have htw : (valLit ++ (w ++ '(' :: (p ++ ')' :: rest2))).takeWhile
      isSpaceChar = [] := by
    simp [valLit, hv]
  have hdw : (valLit ++ (w ++ '(' :: (p ++ ')' :: rest2))).dropWhile
      isSpaceChar = valLit ++ (w ++ '(' :: (p ++ ')' :: rest2)) := by
    simp [valLit, hv]
  have htw2 : (w ++ '(' :: (p ++ ')' :: rest2)).takeWhile isWordChar = w := by
    rw [List.takeWhile_append_of_pos hw]
    simp [hpar]
  have hdw2 : (w ++ '(' :: (p ++ ')' :: rest2)).dropWhile isWordChar
      = '(' :: (p ++ ')' :: rest2) := by
    rw [List.dropWhile_append_of_pos hw]
    simp [hpar]
  have hpp : ∀ c ∈ p, (!(c = ')' : Bool)) = true := by
    intro c hc
    have hne : ¬ (c = ')') := fun h => hp (h ▸ hc)
    simp [hne]
  have htw3 : (p ++ ')' :: rest2).takeWhile (fun c => !(c = ')' : Bool)) = p := by
    rw [List.takeWhile_append_of_pos hpp]
    simp
  have hdw3 : (p ++ ')' :: rest2).dropWhile (fun c => !(c = ')' : Bool))
      = ')' :: rest2 := by
    rw [List.dropWhile_append_of_pos hpp]
    simp
  by_cases hp0 : p = []
  · subst hp0
    simp only [List.nil_append] at htw hdw htw2 hdw2 htw3 hdw3
    simp [parseReturnTail, dropLit_self, List.takeWhile_append_of_pos hsp,
      List.dropWhile_append_of_pos hsp, htw, hdw, htw2, hdw2, htw3, hdw3,
      hsp0, hw0]
  · cases rest2 with
    | nil =>
      simp [parseReturnTail, dropLit_self, List.takeWhile_append_of_pos hsp,
        List.dropWhile_append_of_pos hsp, htw, hdw, htw2, hdw2, htw3, hdw3,
        hsp0, hw0, hp0]
    | cons c t =>
      have hcne : ¬ (c = ';') := by
        intro h
        exact hr2 (by simp [h])
      simp [parseReturnTail, dropLit_self, List.takeWhile_append_of_pos hsp,
        List.dropWhile_append_of_pos hsp, htw, hdw, htw2, hdw2, htw3, hdw3,
        hsp0, hw0, hp0, hcne]

/-- The rewrite regex rejects a bare return with a nested closing
parenthesis that is not immediately followed by `;`. -/
theorem matchReturnVal_none_nested (indent sp w p q tail : List Char)
    (hind : ∀ c ∈ indent, isSpaceChar c = true)
    (hsp : ∀ c ∈ sp, isSpaceChar c = true) (hsp0 : sp ≠ [])
    (hw : ∀ c ∈ w, isWordChar c = true) (hw0 : w ≠ [])
    (hp : ')' ∉ p) (hq : q.head? ≠ some ';') :
    matchReturnVal
      (indent ++ (returnLit ++ (sp ++ (valLit ++ (w ++ '(' ::
        (p ++ ')' :: (q ++ ')' :: ';' :: tail)))))))
      = none := by
  have hr : isSpaceChar 'r' = false := by decide
  have hcr : ¬ (('c' : Char) = 'r') := by decide
  have htw : (indent ++ (returnLit ++ (sp ++ (valLit ++ (w ++ '(' ::
      (p ++ ')' :: (q ++ ')' :: ';' :: tail))))))).takeWhile isSpaceChar
      = indent := by
    rw [List.takeWhile_append_of_pos hind]
    simp [returnLit, hr]
  have hdw : (indent ++ (returnLit ++ (sp ++ (valLit ++ (w ++ '(' ::
      (p ++ ')' :: (q ++ ')' :: ';' :: tail))))))).dropWhile isSpaceChar
      = returnLit ++ (sp ++ (valLit ++ (w ++ '(' ::
        (p ++ ')' :: (q ++ ')' :: ';' :: tail))))) := by
    rw [List.dropWhile_append_of_pos hind]
    simp [returnLit, hr]
  have hcg : parseCaseGroup
      (returnLit ++ (sp ++ (valLit ++ (w ++ '(' ::
        (p ++ ')' :: (q ++ ')' :: ';' :: tail))))))
      = none := by
    simp [parseCaseGroup, returnLit, caseLit, dropLit, hcr]
  have hq2 : (q ++ ')' :: ';' :: tail).head? ≠ some ';' := by
    cases q with
    | nil => simp
    | cons c t =>
      simp only [List.cons_append, List.head?_cons]
      intro h
      exact hq (by simpa using h)
  have hrt := parseReturnTail_none_nested sp w p (q ++ ')' :: ';' :: tail)
    hsp hsp0 hw hw0 hp hq2
  simp [matchReturnVal, htw, hdw, hcg, hrt]

/-! ## Claims -/

/-- C1 (counterexample): the claim says the in-window line
`  return val_int(42);` is rewritten to assignment/goto lines indented
four spaces deeper than the input (six leading spaces).  It is not: the
bare-return branch of the source (lines 37-38) emits at the captured
indentation with no extra step. -/
theorem c1_counterexample :
    processLine true ("  return val_int(42);").toList
      ≠ [("      binary_result = val_int(42);\n").toList,
         ("      goto binary_cleanup;\n").toList] := by decide

/-- C1 (amended): for every rewritten bare-return Shape A line, the
assignment and goto lines carry exactly the captured indentation, with
no additional four-space step; in particular `  return val_int(42);`
becomes `  binary_result = val_int(42);` then `  goto binary_cleanup;`.
(The four-space deepening exists only in the `case`-label branch.) -/
theorem c1_bare_indent_unchanged (indent sp w arg : List Char)
    (hind : ∀ c ∈ indent, isSpaceChar c = true)
    (hsp : ∀ c ∈ sp, isSpaceChar c = true) (hsp0 : sp ≠ [])
    (hw : ∀ c ∈ w, isWordChar c = true) (hw0 : w ≠ [])
    (harg : ')' ∉ arg) (harg0 : arg ≠ [])
    (hgate : hasSub gateLit
      (indent ++ (returnLit ++ (sp ++ (valLit ++ (w ++ '(' :: (arg ++ ')' :: ';' :: [])))))) = true)
    (hcase : hasSub caseLit
      (indent ++ (returnLit ++ (sp ++ (valLit ++ (w ++ '(' :: (arg ++ ')' :: ';' :: [])))))) = false) :
    processLine true
      (indent ++ (returnLit ++ (sp ++ (valLit ++ (w ++ '(' :: (arg ++ ')' :: ';' :: []))))))
      = [indent ++ asgLit ++ (valLit ++ w ++ '(' :: arg ++ [')']) ++ semiNl,
         indent ++ gotoLit] :=
  processLine_bareA indent sp w arg [] hind hsp hsp0 hw hw0 harg harg0 hgate hcase

/-- C1 witness: the amended statement at the line `  return val_int(42);`. -/
theorem c1_witness :
    processLine true
      ([' ', ' '] ++ (returnLit ++ ([' '] ++ (valLit ++
        (['i', 'n', 't'] ++ '(' :: (['4', '2'] ++ ')' :: ';' :: []))))))
      = [[' ', ' '] ++ asgLit ++ (valLit ++ ['i', 'n', 't'] ++ '(' :: ['4', '2'] ++ [')']) ++ semiNl,
         [' ', ' '] ++ gotoLit] :=
  c1_bare_indent_unchanged [' ', ' '] [' '] ['i', 'n', 't'] ['4', '2']
    (by decide) (by decide) (by decide) (by decide) (by decide) (by decide)
    (by decide) (by decide) (by decide)

/-- C2 (counterexample): the line `  return  val_int(42);` satisfies
Shape A (the claim allows whitespace of any length after `return`), and
the regex indeed matches it, but the coarse gate of source line 22
requires the contiguous substring `return val_`, so the line is passed
through unchanged, contradicting the claim that such a line is never
passed through. -/
theorem c2_counterexample :
    matchReturnVal ("  return  val_int(42);").toList
      = some ⟨[' ', ' '], ("val_int(42)").toList⟩
    ∧ processLine true ("  return  val_int(42);").toList
      = [("  return  val_int(42);").toList] := by decide

/-- C2 (amended): an in-window Shape A line that also contains the
contiguous gate substring `return val_` and does not contain the
substring `case ` while failing the label regex is matched by the
classifier and replaced by exactly the assignment/goto pair — in
particular it is never passed through unchanged. -/
theorem c2_gated_bare_rewrite (indent sp w arg tail : List Char)
    (hind : ∀ c ∈ indent, isSpaceChar c = true)
    (hsp : ∀ c ∈ sp, isSpaceChar c = true) (hsp0 : sp ≠ [])
    (hw : ∀ c ∈ w, isWordChar c = true) (hw0 : w ≠ [])
    (harg : ')' ∉ arg) (harg0 : arg ≠ [])
    (hgate : hasSub gateLit
      (indent ++ (returnLit ++ (sp ++ (valLit ++ (w ++ '(' :: (arg ++ ')' :: ';' :: tail)))))) = true)
    (hcase : hasSub caseLit
      (indent ++ (returnLit ++ (sp ++ (valLit ++ (w ++ '(' :: (arg ++ ')' :: ';' :: tail)))))) = false) :
    matchReturnVal
      (indent ++ (returnLit ++ (sp ++ (valLit ++ (w ++ '(' :: (arg ++ ')' :: ';' :: tail))))))
      = some ⟨indent, valLit ++ w ++ '(' :: arg ++ [')']⟩
    ∧ processLine true
      (indent ++ (returnLit ++ (sp ++ (valLit ++ (w ++ '(' :: (arg ++ ')' :: ';' :: tail))))))
      = [indent ++ asgLit ++ (valLit ++ w ++ '(' :: arg ++ [')']) ++ semiNl,
         indent ++ gotoLit]
    ∧ processLine true
      (indent ++ (returnLit ++ (sp ++ (valLit ++ (w ++ '(' :: (arg ++ ')' :: ';' :: tail))))))
      ≠ [indent ++ (returnLit ++ (sp ++ (valLit ++ (w ++ '(' :: (arg ++ ')' :: ';' :: tail)))))] := by
  have hm := matchReturnVal_shapeA indent sp w arg tail hind hsp hsp0 hw hw0 harg harg0
  have hout := processLine_bareA indent sp w arg tail hind hsp hsp0 hw hw0 harg harg0
    hgate hcase
  refine ⟨hm, hout, ?_⟩
  rw [hout]
  intro hbad
  have hlen := congrArg List.length hbad
  simp at hlen

/-- C2 witness: the amended statement at the line `  return val_int(42);`. -/
theorem c2_witness :
    matchReturnVal
      ([' ', ' '] ++ (returnLit ++ ([' '] ++ (valLit ++
        (['i', 'n', 't'] ++ '(' :: (['4', '2'] ++ ')' :: ';' :: []))))))
      = some ⟨[' ', ' '], valLit ++ ['i', 'n', 't'] ++ '(' :: ['4', '2'] ++ [')']⟩
    ∧ processLine true
      ([' ', ' '] ++ (returnLit ++ ([' '] ++ (valLit ++
        (['i', 'n', 't'] ++ '(' :: (['4', '2'] ++ ')' :: ';' :: []))))))
      = [[' ', ' '] ++ asgLit ++ (valLit ++ ['i', 'n', 't'] ++ '(' :: ['4', '2'] ++ [')']) ++ semiNl,
         [' ', ' '] ++ gotoLit]
    ∧ processLine true
      ([' ', ' '] ++ (returnLit ++ ([' '] ++ (valLit ++
        (['i', 'n', 't'] ++ '(' :: (['4', '2'] ++ ')' :: ';' :: []))))))
      ≠ [[' ', ' '] ++ (returnLit ++ ([' '] ++ (valLit ++
        (['i', 'n', 't'] ++ '(' :: (['4', '2'] ++ ')' :: ';' :: [])))))] :=
  c2_gated_bare_rewrite [' ', ' '] [' '] ['i', 'n', 't'] ['4', '2'] []
    (by decide) (by decide) (by decide) (by decide) (by decide) (by decide)
    (by decide) (by decide) (by decide)

/-- C3: the one-shot open/close flag over the monotonically increasing
line counter equals the pure interval test: the flag observed at line
`i` is true exactly for `175 ≤ i < 605` (so line 175 is eligible and
line 605 is not), and consequently the whole run is the stateless
interval rendering. -/
theorem c3_window_interval :
    (∀ i, flagAfter i = windowOpen i) ∧
      ∀ ls : List Line, rewriteLines ls = intervalGo 1 ls :=
  ⟨flagAfter_eq, rewriteLines_eq_interval⟩

/-- C4 (counterexample): the claim asserts emitted lines contain no
`return val_` gate substring.  When the matched argument itself
contains that text, the emitted assignment line contains it verbatim
(the rewrite is still idempotent, because the emitted line cannot match
the anchored regex). -/
theorem c4_counterexample :
    processLine true ("  return val_str(return val_q);").toList
      = [("  binary_result = val_str(return val_q);\n").toList,
         ("  goto binary_cleanup;\n").toList]
    ∧ hasSub gateLit (("  binary_result = val_str(return val_q);\n").toList) = true := by
  decide

/-- C4 (amended): applying the whole rewrite to its own output is the
identity — no output line is rewritten on a second run (emitted lines
can contain the gate substring, but never match the recognized shapes,
and pass-through lines keep failing or keep sitting outside the
window). -/
theorem c4_second_run_identity (ls : List Line) :
    rewriteLines (rewriteLines ls) = rewriteLines ls := by
  rw [rewriteLines_eq_interval (rewriteLines ls), rewriteLines_eq_interval ls]
  exact intervalGo_idem ls 1 1 le_rfl (fun _ => rfl)

/-- C5 (counterexample): the claim says a nested-parenthesis argument is
never truncated at the first inner `)`.  But when the first inner `)`
is immediately followed by `;` — as in the plausible C line
`  return val_str("f(x); g");` — the regex matches and the emitted
assignment is exactly the truncation at that point. -/
theorem c5_counterexample :
    processLine true ("  return val_str(\"f(x); g\");").toList
      = [("  binary_result = val_str(\"f(x);\n").toList,
         ("  goto binary_cleanup;\n").toList]
    ∧ processLine true ("  return val_str(\"f(x); g\");").toList
      ≠ [("  return val_str(\"f(x); g\");").toList] := by decide

/-- C5 (amended): an in-window bare return whose argument contains a
nested closing parenthesis is left unmatched and passed through
byte-for-byte whenever the first inner `)` is not immediately followed
by `;` (in particular for `return val_call(f(x), y);`); when it is so
followed, the emitted assignment is truncated there. -/
theorem c5_nested_passthrough (indent sp w p q tail : List Char)
    (hind : ∀ c ∈ indent, isSpaceChar c = true)
    (hsp : ∀ c ∈ sp, isSpaceChar c = true) (hsp0 : sp ≠ [])
    (hw : ∀ c ∈ w, isWordChar c = true) (hw0 : w ≠ [])
    (hp : ')' ∉ p) (hq : q.head? ≠ some ';') :
    matchReturnVal
      (indent ++ (returnLit ++ (sp ++ (valLit ++ (w ++ '(' ::
        (p ++ ')' :: (q ++ ')' :: ';' :: tail)))))))
      = none
    ∧ processLine true
      (indent ++ (returnLit ++ (sp ++ (valLit ++ (w ++ '(' ::
        (p ++ ')' :: (q ++ ')' :: ';' :: tail)))))))
      = [indent ++ (returnLit ++ (sp ++ (valLit ++ (w ++ '(' ::
        (p ++ ')' :: (q ++ ')' :: ';' :: tail))))))] := by
  have hm := matchReturnVal_none_nested indent sp w p q tail hind hsp hsp0 hw hw0 hp hq
  exact ⟨hm, processLine_of_none hm true⟩

/-- C5 witness: the amended statement at `  return val_call(f(x), y);`. -/
theorem c5_witness :
    matchReturnVal
      ([' ', ' '] ++ (returnLit ++ ([' '] ++ (valLit ++ (['c', 'a', 'l', 'l'] ++ '(' ::
        (['f', '(', 'x'] ++ ')' :: ([',', ' ', 'y'] ++ ')' :: ';' :: [])))))))
      = none
    ∧ processLine true
      ([' ', ' '] ++ (returnLit ++ ([' '] ++ (valLit ++ (['c', 'a', 'l', 'l'] ++ '(' ::
        (['f', '(', 'x'] ++ ')' :: ([',', ' ', 'y'] ++ ')' :: ';' :: [])))))))
      = [[' ', ' '] ++ (returnLit ++ ([' '] ++ (valLit ++ (['c', 'a', 'l', 'l'] ++ '(' ::
        (['f', '(', 'x'] ++ ')' :: ([',', ' ', 'y'] ++ ')' :: ';' :: []))))))] :=
  c5_nested_passthrough [' ', ' '] [' '] ['c', 'a', 'l', 'l'] ['f', '(', 'x']
    [',', ' ', 'y'] [] (by decide) (by decide) (by decide) (by decide)
    (by decide) (by decide) (by decide)

/-- C6: an in-window Shape B line (label and return on one physical
line, with a single space between `return` and the call) is replaced by
exactly three lines: the preserved label at the original indentation,
then the assignment and the goto, both one four-space step deeper. -/
theorem c6_case_label_rewrite (indent w1 sp1 w arg tail : List Char)
    (hind : ∀ c ∈ indent, isSpaceChar c = true)
    (hw1 : ∀ c ∈ w1, isWordChar c = true) (hw10 : w1 ≠ [])
    (hsp1 : ∀ c ∈ sp1, isSpaceChar c = true)
    (hw : ∀ c ∈ w, isWordChar c = true) (hw0 : w ≠ [])
    (harg : ')' ∉ arg) (harg0 : arg ≠ []) :
    processLine true
      (indent ++ (caseLit ++ (w1 ++ ':' :: (sp1 ++
        (returnLit ++ ([' '] ++ (valLit ++ (w ++ '(' :: (arg ++ ')' :: ';' :: tail)))))))))
      = [indent ++ (caseLit ++ w1) ++ colonNl,
         indent ++ fourSp ++ asgLit ++ (valLit ++ w ++ '(' :: arg ++ [')']) ++ semiNl,
         indent ++ fourSp ++ gotoLit] := by
  have hform : indent ++ (caseLit ++ (w1 ++ ':' :: (sp1 ++
      (returnLit ++ ([' '] ++ (valLit ++ (w ++ '(' :: (arg ++ ')' :: ';' :: tail))))))))
      = (indent ++ (caseLit ++ (w1 ++ ':' :: sp1)))
        ++ (gateLit ++ (w ++ '(' :: (arg ++ ')' :: ';' :: tail))) := by
    simp [gateLit, returnLit, valLit]
  have hgate : hasSub gateLit
      (indent ++ (caseLit ++ (w1 ++ ':' :: (sp1 ++
        (returnLit ++ ([' '] ++ (valLit ++ (w ++ '(' :: (arg ++ ')' :: ';' :: tail))))))))) = true := by
    rw [hform]
    exact hasSub_app gateLit _ _ (isPrefixOf_app gateLit _)
  exact processLine_caseB indent w1 sp1 [' '] w arg tail hind hw1 hw10 hsp1
    (by decide) (by decide) hw hw0 harg harg0 hgate

/-- C6 witness: the statement at `    case OP_ADD: return val_add(a, b);`. -/
theorem c6_witness :
    processLine true
      ([' ', ' ', ' ', ' '] ++ (caseLit ++ (['O', 'P', '_', 'A', 'D', 'D'] ++ ':' :: ([' '] ++
        (returnLit ++ ([' '] ++ (valLit ++ (['a', 'd', 'd'] ++ '(' ::
          (['a', ',', ' ', 'b'] ++ ')' :: ';' :: [])))))))))
      = [[' ', ' ', ' ', ' '] ++ (caseLit ++ ['O', 'P', '_', 'A', 'D', 'D']) ++ colonNl,
         [' ', ' ', ' ', ' '] ++ fourSp ++ asgLit ++
           (valLit ++ ['a', 'd', 'd'] ++ '(' :: ['a', ',', ' ', 'b'] ++ [')']) ++ semiNl,
         [' ', ' ', ' ', ' '] ++ fourSp ++ gotoLit] :=
  c6_case_label_rewrite [' ', ' ', ' ', ' '] ['O', 'P', '_', 'A', 'D', 'D'] [' ']
    ['a', 'd', 'd'] ['a', ',', ' ', 'b'] []
    (by decide) (by decide) (by decide) (by decide) (by decide) (by decide)
    (by decide) (by decide)

/-- C7: every line whose 1-based number lies outside the window
contributes exactly one output line, equal to the input line
byte-for-byte, in original order: the whole run equals the rendering
that copies out-of-window lines verbatim. -/
theorem c7_outside_passthrough (ls : List Line) :
    rewriteLines ls = outsideGo 1 ls := by
  rw [rewriteLines_eq_interval]
  exact intervalGo_eq_outside ls 1

/-- C8: if the read fails (the file is missing/unreadable, modelled as
`none`), the run aborts before the transform/write phase: the write
flag is false and the file state is returned untouched. -/
theorem c8_read_failure_no_write (file : Option (List Line))
    (h : file = none) : runScript file = (file, false) := by
  rw [h]
  rfl

/-- C8 witness: the statement at the failing read. -/
theorem c8_witness : runScript none = (none, false) :=
  c8_read_failure_no_write none rfl

/-- C9 (counterexample): the claim says text after the matched `;` is
always discarded on a matched line.  The line
`  return val_int(42); // case note` is matched by the regex, yet its
trailing comment makes the `case ` substring check fire without a label
match, so the whole line — trailing text included — is passed through. -/
theorem c9_counterexample :
    matchReturnVal ("  return val_int(42); // case note").toList
      = some ⟨[' ', ' '], ("val_int(42)").toList⟩
    ∧ processLine true ("  return val_int(42); // case note").toList
      = [("  return val_int(42); // case note").toList] := by decide

/-- C9 (amended): on a matched line that is actually rewritten (gate
passed; no `case ` substring for Shape A, label regex matched for
Shape B), everything after the matched `;` is discarded: the emitted
lines are built solely from the captured indentation, optional label,
and expression, with the trailing `tail` appearing nowhere. -/
theorem c9_tail_discarded :
    (∀ indent sp w arg tail : List Char,
      (∀ c ∈ indent, isSpaceChar c = true) →
      (∀ c ∈ sp, isSpaceChar c = true) → sp ≠ [] →
      (∀ c ∈ w, isWordChar c = true) → w ≠ [] →
      ')' ∉ arg → arg ≠ [] →
      hasSub gateLit
        (indent ++ (returnLit ++ (sp ++ (valLit ++ (w ++ '(' :: (arg ++ ')' :: ';' :: tail)))))) = true →
      hasSub caseLit
        (indent ++ (returnLit ++ (sp ++ (valLit ++ (w ++ '(' :: (arg ++ ')' :: ';' :: tail)))))) = false →
      processLine true
        (indent ++ (returnLit ++ (sp ++ (valLit ++ (w ++ '(' :: (arg ++ ')' :: ';' :: tail))))))
        = [indent ++ asgLit ++ (valLit ++ w ++ '(' :: arg ++ [')']) ++ semiNl,
           indent ++ gotoLit])
    ∧ (∀ indent w1 sp1 sp2 w arg tail : List Char,
      (∀ c ∈ indent, isSpaceChar c = true) →
      (∀ c ∈ w1, isWordChar c = true) → w1 ≠ [] →
      (∀ c ∈ sp1, isSpaceChar c = true) →
      (∀ c ∈ sp2, isSpaceChar c = true) → sp2 ≠ [] →
      (∀ c ∈ w, isWordChar c = true) → w ≠ [] →
      ')' ∉ arg → arg ≠ [] →
      hasSub gateLit
        (indent ++ (caseLit ++ (w1 ++ ':' :: (sp1 ++
          (returnLit ++ (sp2 ++ (valLit ++ (w ++ '(' :: (arg ++ ')' :: ';' :: tail))))))))) = true →
      processLine true
        (indent ++ (caseLit ++ (w1 ++ ':' :: (sp1 ++
          (returnLit ++ (sp2 ++ (valLit ++ (w ++ '(' :: (arg ++ ')' :: ';' :: tail)))))))))
        = [indent ++ (caseLit ++ w1) ++ colonNl,
           indent ++ fourSp ++ asgLit ++ (valLit ++ w ++ '(' :: arg ++ [')']) ++ semiNl,
           indent ++ fourSp ++ gotoLit]) :=
  ⟨fun indent sp w arg tail hind hsp hsp0 hw hw0 harg harg0 hgate hcase =>
      processLine_bareA indent sp w arg tail hind hsp hsp0 hw hw0 harg harg0 hgate hcase,
   fun indent w1 sp1 sp2 w arg tail hind hw1 hw10 hsp1 hsp2 hsp20 hw hw0 harg harg0 hgate =>
      processLine_caseB indent w1 sp1 sp2 w arg tail hind hw1 hw10 hsp1 hsp2 hsp20
        hw hw0 harg harg0 hgate⟩

/-- C9 witness: the amended statement at
`  return val_int(42); /* note */` — the comment is discarded. -/
theorem c9_witness :
    processLine true
      ([' ', ' '] ++ (returnLit ++ ([' '] ++ (valLit ++ (['i', 'n', 't'] ++ '(' ::
        (['4', '2'] ++ ')' :: ';' :: [' ', '/', '*', ' ', 'n', 'o', 't', 'e', ' ', '*', '/']))))))
      = [[' ', ' '] ++ asgLit ++ (valLit ++ ['i', 'n', 't'] ++ '(' :: ['4', '2'] ++ [')']) ++ semiNl,
         [' ', ' '] ++ gotoLit] :=
  c9_tail_discarded.1 [' ', ' '] [' '] ['i', 'n', 't'] ['4', '2']
    [' ', '/', '*', ' ', 'n', 'o', 't', 'e', ' ', '*', '/']
    (by decide) (by decide) (by decide) (by decide) (by decide) (by decide)
    (by decide) (by decide) (by decide)

/-- C10: every emitted replacement line ends in `;` or `:` followed by
exactly one `\n`, whatever terminator the input line carried in its
trailing text, while lines the regex rejects are kept verbatim,
terminator included. -/
theorem c10_newline_terminated :
    (∀ indent sp w arg tail : List Char,
      (∀ c ∈ indent, isSpaceChar c = true) →
      (∀ c ∈ sp, isSpaceChar c = true) → sp ≠ [] →
      (∀ c ∈ w, isWordChar c = true) → w ≠ [] →
      ')' ∉ arg → arg ≠ [] →
      hasSub gateLit
        (indent ++ (returnLit ++ (sp ++ (valLit ++ (w ++ '(' :: (arg ++ ')' :: ';' :: tail)))))) = true →
      hasSub caseLit
        (indent ++ (returnLit ++ (sp ++ (valLit ++ (w ++ '(' :: (arg ++ ')' :: ';' :: tail)))))) = false →
      ∃ u v, processLine true
        (indent ++ (returnLit ++ (sp ++ (valLit ++ (w ++ '(' :: (arg ++ ')' :: ';' :: tail))))))
        = [u ++ semiNl, v ++ semiNl])
    ∧ (∀ indent w1 sp1 sp2 w arg tail : List Char,
      (∀ c ∈ indent, isSpaceChar c = true) →
      (∀ c ∈ w1, isWordChar c = true) → w1 ≠ [] →
      (∀ c ∈ sp1, isSpaceChar c = true) →
      (∀ c ∈ sp2, isSpaceChar c = true) → sp2 ≠ [] →
      (∀ c ∈ w, isWordChar c = true) → w ≠ [] →
      ')' ∉ arg → arg ≠ [] →
      hasSub gateLit
        (indent ++ (caseLit ++ (w1 ++ ':' :: (sp1 ++
          (returnLit ++ (sp2 ++ (valLit ++ (w ++ '(' :: (arg ++ ')' :: ';' :: tail))))))))) = true →
      ∃ t u v, processLine true
        (indent ++ (caseLit ++ (w1 ++ ':' :: (sp1 ++
          (returnLit ++ (sp2 ++ (valLit ++ (w ++ '(' :: (arg ++ ')' :: ';' :: tail)))))))))
        = [t ++ colonNl, u ++ semiNl, v ++ semiNl])
    ∧ ∀ (b : Bool) (l : Line), matchReturnVal l = none → processLine b l = [l] := by
  refine ⟨?_, ?_, fun b l h => processLine_of_none h b⟩
  · intro indent sp w arg tail hind hsp hsp0 hw hw0 harg harg0 hgate hcase
    refine ⟨indent ++ asgLit ++ (valLit ++ w ++ '(' :: arg ++ [')']),
      indent ++ ['g', 'o', 't', 'o', ' ', 'b', 'i', 'n', 'a', 'r', 'y', '_',
        'c', 'l', 'e', 'a', 'n', 'u', 'p'], ?_⟩
    rw [processLine_bareA indent sp w arg tail hind hsp hsp0 hw hw0 harg harg0 hgate hcase]
    simp [gotoLit, semiNl]
  · intro indent w1 sp1 sp2 w arg tail hind hw1 hw10 hsp1 hsp2 hsp20 hw hw0 harg harg0 hgate
    refine ⟨indent ++ (caseLit ++ w1),
      indent ++ fourSp ++ asgLit ++ (valLit ++ w ++ '(' :: arg ++ [')']),
      indent ++ fourSp ++ ['g', 'o', 't', 'o', ' ', 'b', 'i', 'n', 'a', 'r', 'y', '_',
        'c', 'l', 'e', 'a', 'n', 'u', 'p'], ?_⟩
    rw [processLine_caseB indent w1 sp1 sp2 w arg tail hind hw1 hw10 hsp1 hsp2 hsp20
      hw hw0 harg harg0 hgate]
    simp [gotoLit, semiNl, colonNl]

/-- C10 witness: the first part at the line `  return val_int(7);`
carrying a carriage-return/newline terminator in its trailing text. -/
theorem c10_witness :
    ∃ u v, processLine true
      ([' ', ' '] ++ (returnLit ++ ([' '] ++ (valLit ++ (['i', 'n', 't'] ++ '(' ::
        (['7'] ++ ')' :: ';' :: ['\r', '\n']))))))
      = [u ++ semiNl, v ++ semiNl] :=
  c10_newline_terminated.1 [' ', ' '] [' '] ['i', 'n', 't'] ['7'] ['\r', '\n']
    (by decide) (by decide) (by decide) (by decide) (by decide) (by decide)
    (by decide) (by decide) (by decide)

end FixBinaryReturns
